import Mathlib

/-!
Verification of the static-preprocessing asset pipeline.

The development embeds the two Rust source files of the repository
(`src/lib.rs` and `src/hash.rs`) as executable Lean definitions and proves
the behavioural claims of the specification against them.  Byte strings are
`List Nat` (each element a byte value), paths are lists of components, and
filesystem effects are made explicit by threading filesystem states.
-/

set_option maxRecDepth 100000

namespace StaticPreprocessing

/-! ## Bytes, 32-bit words and the BLAKE3 content hash

The repository delegates hashing to the external `blake3` crate.  The
pipeline claims depend on concrete digests, so the hash is embedded here in
full (compression function, chunk chaining and the chunk tree), following
the published BLAKE3 specification.  Words are `Nat` reduced modulo `2 ^ 32`.
-/

/-- Rotation of a 32-bit word to the right by `n` bits. -/
def rotr32 (x n : Nat) : Nat :=
  ((x >>> n) ||| (x <<< (32 - n))) % 4294967296

/-- Addition of 32-bit words, wrapping modulo `2 ^ 32`. -/
def add32 (a b : Nat) : Nat := (a + b) % 4294967296

/-- Initialization vector of BLAKE3 (the SHA-256 constants). -/
def blake3IV : List Nat :=
  [0x6A09E667, 0xBB67AE85, 0x3C6EF372, 0xA54FF53A,
   0x510E527F, 0x9B05688C, 0x1F83D9AB, 0x5BE0CD19]

/-- Quarter-round mixing function `G` of BLAKE3, acting on four positions of
the 16-word state and two message words. -/
def gMix (st : List Nat) (a b c d mx my : Nat) : List Nat :=
  let va := st.getD a 0
  let vb := st.getD b 0
  let vc := st.getD c 0
  let vd := st.getD d 0
  let a1 := add32 (add32 va vb) mx
  let d1 := rotr32 (vd ^^^ a1) 16
  let c1 := add32 vc d1
  let b1 := rotr32 (vb ^^^ c1) 12
  let a2 := add32 (add32 a1 b1) my
  let d2 := rotr32 (d1 ^^^ a2) 8
  let c2 := add32 c1 d2
  let b2 := rotr32 (b1 ^^^ c2) 7
  ((((st.set a a2).set b b2).set c c2).set d d2)

/-- One full round of the BLAKE3 compression: columns then diagonals. -/
def roundFn (st m : List Nat) : List Nat :=
  let w := fun i => m.getD i 0
  let s1 := gMix st 0 4 8 12 (w 0) (w 1)
  let s2 := gMix s1 1 5 9 13 (w 2) (w 3)
  let s3 := gMix s2 2 6 10 14 (w 4) (w 5)
  let s4 := gMix s3 3 7 11 15 (w 6) (w 7)
  let s5 := gMix s4 0 5 10 15 (w 8) (w 9)
  let s6 := gMix s5 1 6 11 12 (w 10) (w 11)
  let s7 := gMix s6 2 7 8 13 (w 12) (w 13)
  gMix s7 3 4 9 14 (w 14) (w 15)

/-- Message word permutation applied between rounds. -/
def permuteMsg (m : List Nat) : List Nat :=
  [m.getD 2 0, m.getD 6 0, m.getD 3 0, m.getD 10 0,
   m.getD 7 0, m.getD 0 0, m.getD 4 0, m.getD 13 0,
   m.getD 1 0, m.getD 11 0, m.getD 12 0, m.getD 5 0,
   m.getD 9 0, m.getD 14 0, m.getD 15 0, m.getD 8 0]

/-- Seven rounds of mixing with the message permuted between rounds. -/
def sevenRounds (st m : List Nat) : List Nat :=
  let r1 := roundFn st m
  let m1 := permuteMsg m
  let r2 := roundFn r1 m1
  let m2 := permuteMsg m1
  let r3 := roundFn r2 m2
  let m3 := permuteMsg m2
  let r4 := roundFn r3 m3
  let m4 := permuteMsg m3
  let r5 := roundFn r4 m4
  let m5 := permuteMsg m4
  let r6 := roundFn r5 m5
  let m6 := permuteMsg m5
  roundFn r6 m6

/-- BLAKE3 compression function, returning the first eight output words
(the chaining value). -/
def compress (h m : List Nat) (t blen flags : Nat) : List Nat :=
  let st0 := h.take 8 ++ blake3IV.take 4 ++
    [t % 4294967296, t / 4294967296 % 4294967296, blen, flags]
  let p := sevenRounds st0 m
  (List.range 8).map fun i => (p.getD i 0) ^^^ (p.getD (i + 8) 0)

/-- Little-endian 32-bit word from a list of (at most four) bytes. -/
def wordLE (bs : List Nat) : Nat :=
  bs.foldr (fun b acc => b % 256 + 256 * acc) 0

/-- Sixteen little-endian message words of a block, zero-padded to 64 bytes. -/
def blockWords (block : List Nat) : List Nat :=
  let padded := block ++ List.replicate (64 - block.length) 0
  (List.range 16).map fun i => wordLE ((padded.drop (4 * i)).take 4)

/-- Structural helper for `blocksOf64`; the fuel bounds the number of
blocks and is instantiated with the list length, which always suffices. -/
def blocksOf64Aux : Nat → List Nat → List (List Nat)
  | _, [] => []
  | 0, _ :: _ => []
  | fuel + 1, b :: rest =>
      ((b :: rest).take 64) :: blocksOf64Aux fuel ((b :: rest).drop 64)

/-- Splitting a byte list into blocks of at most 64 bytes. -/
def blocksOf64 (l : List Nat) : List (List Nat) :=
  blocksOf64Aux l.length l

/-- Blocks of a chunk; the empty chunk consists of a single empty block. -/
def chunkBlocks (data : List Nat) : List (List Nat) :=
  if data.isEmpty then [[]] else blocksOf64 data

/-- Folding the compression function over the blocks of one chunk.  The first
block carries CHUNK_START (1), the last carries CHUNK_END (2) and, for a
root chunk, ROOT (8). -/
def chunkCVAux (counter : Nat) (root : Bool) : List Nat → Bool → List (List Nat) → List Nat
  | h, _, [] => h
  | h, first, [b] =>
      compress h (blockWords b) counter b.length
        ((if first then 1 else 0) + 2 + (if root then 8 else 0))
  | h, first, b :: b2 :: bs =>
      chunkCVAux counter root
        (compress h (blockWords b) counter b.length (if first then 1 else 0))
        false (b2 :: bs)

/-- Chaining value of one chunk of at most 1024 bytes. -/
def chunkCV (data : List Nat) (counter : Nat) (root : Bool) : List Nat :=
  chunkCVAux counter root blake3IV true (chunkBlocks data)

/-- Parent-node compression over two child chaining values, with flag
PARENT (4) and, at the root, ROOT (8). -/
def parentCV (l r : List Nat) (root : Bool) : List Nat :=
  compress blake3IV (l.take 8 ++ r.take 8) 0 64 (4 + if root then 8 else 0)

/-- Structural helper for `chunksOf1024`, fueled like `blocksOf64Aux`. -/
def chunksOf1024Aux : Nat → List Nat → List (List Nat)
  | _, [] => []
  | 0, _ :: _ => []
  | fuel + 1, b :: rest =>
      ((b :: rest).take 1024) :: chunksOf1024Aux fuel ((b :: rest).drop 1024)

/-- Splitting input bytes into chunks of at most 1024 bytes. -/
def chunksOf1024 (l : List Nat) : List (List Nat) :=
  chunksOf1024Aux l.length l

/-- Structural helper for `subtreeCV`; the fuel bounds the tree height and
is instantiated with the number of chunks, which always suffices. -/
def subtreeCVAux : Nat → List (List Nat) → Nat → List Nat
  | _, [], _ => blake3IV
  | _, [c], base => chunkCV c base false
  | 0, _ :: _ :: _, _ => blake3IV
  | fuel + 1, c1 :: c2 :: cs, base =>
      let n := (c1 :: c2 :: cs).length
      let p := 2 ^ Nat.log2 (n - 1)
      parentCV (subtreeCVAux fuel ((c1 :: c2 :: cs).take p) base)
        (subtreeCVAux fuel ((c1 :: c2 :: cs).drop p) (base + p)) false

/-- Chaining value of a subtree of chunks starting at chunk index `base`;
the left child takes the largest power of two of chunks strictly below the
total. -/
def subtreeCV (cs : List (List Nat)) (base : Nat) : List Nat :=
  subtreeCVAux cs.length cs base

/-- Eight output words of the BLAKE3 hash of a byte sequence. -/
def blake3Words (data : List Nat) : List Nat :=
  match (if data.isEmpty then [[]] else chunksOf1024 data) with
  | [c] => chunkCV c 0 true
  | cs =>
      let n := cs.length
      let p := 2 ^ Nat.log2 (n - 1)
      parentCV (subtreeCV (cs.take p) 0) (subtreeCV (cs.drop p) p) true

/-- Little-endian byte serialization of a list of 32-bit words. -/
def wordsToBytesLE (ws : List Nat) : List Nat :=
  ws.foldr (fun w acc =>
    w % 256 :: w / 256 % 256 :: w / 65536 % 256 :: w / 16777216 % 256 :: acc) []

/-- Lowercase hexadecimal digit for a value below 16. -/
def hexDigit (n : Nat) : Char :=
  if n < 10 then Char.ofNat (48 + n) else Char.ofNat (87 + n)

/-- Lowercase hexadecimal character encoding of a byte list. -/
def bytesToHexChars (bs : List Nat) : List Char :=
  bs.foldr (fun b acc => hexDigit (b / 16 % 16) :: hexDigit (b % 16) :: acc) []

/-- Lowercase hexadecimal BLAKE3 digest of a byte sequence, matching
`blake3::hash(..).to_string()` of the external crate. -/
def blake3Hex (data : List Nat) : String :=
  String.mk (bytesToHexChars (wordsToBytesLE (blake3Words data)))

/-! ## UTF-8

The CSS branch of the transformer decodes the raw bytes with
`std::str::from_utf8` and re-encodes the printed stylesheet with
`String::into_bytes`.  Both are embedded here following the UTF-8 standard:
the decoder rejects stray continuation bytes, overlong forms, surrogate
code points and values above 0x10FFFF. -/

/-- Whether a byte is a UTF-8 continuation byte. -/
def isContByte (b : Nat) : Bool := 128 ≤ b && b < 192

/-- Decoding a byte list as UTF-8 text; `none` on any malformed sequence. -/
def utf8Decode? : List Nat → Option (List Char)
  | [] => some []
  | b :: rest =>
    if b < 128 then
      (utf8Decode? rest).map (Char.ofNat b :: ·)
    else if b < 194 then
      none
    else if b < 224 then
      match rest with
      | c1 :: r =>
        if isContByte c1 then
          (utf8Decode? r).map (Char.ofNat ((b - 192) * 64 + (c1 - 128)) :: ·)
        else none
      | [] => none
    else if b < 240 then
      match rest with
      | c1 :: c2 :: r =>
        if isContByte c1 && isContByte c2 &&
            !(b == 224 && c1 < 160) && !(b == 237 && 160 ≤ c1) then
          (utf8Decode? r).map
            (Char.ofNat ((b - 224) * 4096 + (c1 - 128) * 64 + (c2 - 128)) :: ·)
        else none
      | _ => none
    else if b < 245 then
      match rest with
      | c1 :: c2 :: c3 :: r =>
        if isContByte c1 && isContByte c2 && isContByte c3 &&
            !(b == 240 && c1 < 144) && !(b == 244 && 144 ≤ c1) then
          (utf8Decode? r).map
            (Char.ofNat ((b - 240) * 262144 + (c1 - 128) * 4096 +
              (c2 - 128) * 64 + (c3 - 128)) :: ·)
        else none
      | _ => none
    else none

/-- Decoding bytes to a string, as `std::str::from_utf8` (success case). -/
def decodeUtf8Str? (bs : List Nat) : Option String :=
  (utf8Decode? bs).map String.mk

/-- UTF-8 encoding of one character. -/
def utf8EncodeChar (c : Char) : List Nat :=
  let n := c.toNat
  if n < 128 then [n]
  else if n < 2048 then [192 + n / 64, 128 + n % 64]
  else if n < 65536 then [224 + n / 4096, 128 + n / 64 % 64, 128 + n % 64]
  else [240 + n / 262144, 128 + n / 4096 % 64, 128 + n / 64 % 64, 128 + n % 64]

/-- UTF-8 byte encoding of a string, as `String::into_bytes`. -/
def strToBytes (s : String) : List Nat :=
  (s.data.map utf8EncodeChar).flatten

/-- Modelled from the spec: the message text of the std library UTF-8 decode
error that `minify_css` converts with `to_string()`; the exact text is
external to the repository, only its presence matters to the claims. -/
def utf8ErrorMsg (bs : List Nat) : String :=
  "invalid utf-8 sequence at byte " ++ toString (bs.length - (bs.dropWhile (· < 128)).length)

/-! ## Paths

A relative path is its list of components.  `pathFileName`, `pathParent` and
`pathExtension` embed the accessors of `std::path::Path` used by the two
source files (components are taken to be plain names, and all names are
valid Unicode, so `to_str` and `to_string_lossy` are the identity). -/

/-- Path as a list of components. -/
abbrev RPath := List String

/-- Final component of a path, as `Path::file_name`. -/
def pathFileName (p : RPath) : Option String := p.getLast?

/-- Parent of a path, as `Path::parent`: `none` only for the empty path. -/
def pathParent (p : RPath) : Option RPath :=
  if p.isEmpty then none else some p.dropLast

/-- Extension of a file name, as `Path::extension`: the part after the last
dot, or `none` when there is no dot or the only dot leads the name. -/
def extOfFileName (name : String) : Option String :=
  let rev := name.data.reverse
  let after := rev.takeWhile (· ≠ '.')
  if after.length = rev.length then none
  else if after.length + 1 = rev.length then none
  else some (String.mk after.reverse)

/-- Extension of a path, as `Path::extension`. -/
def pathExtension (p : RPath) : Option String :=
  (pathFileName p).bind extOfFileName

/-- String rendering of a path with forward-slash separators, as
`Path::to_string_lossy` on the paths built by the traversal. -/
def pathToString (p : RPath) : String := String.intercalate "/" p

/-! ## Error types (`src/lib.rs`, `StaticPreprocessingError`) -/

/-- Kind of a std `io::Error`, as used by the sources. -/
inductive IOErrorKind where
  | invalidInput
  | notFound
  | permissionDenied
  | alreadyExists
  | otherKind
deriving DecidableEq

/-- Model of std `io::Error`: a kind plus a message. -/
structure IOError where
  kind : IOErrorKind
  msg : String
deriving DecidableEq

/-- Error enumeration of `src/lib.rs` (`StaticPreprocessingError`). -/
inductive StaticPreprocessingError where
  | IOError (e : IOError)
  | ParsingError (msg : String)
  | MinificationError (msg : String)
  | HashError (msg : String)
  | ImageProcessingError (msg : String)
deriving DecidableEq

/-- Short alias used throughout, mirroring `type LibError` in `src/lib.rs`. -/
abbrev LibError := StaticPreprocessingError

/-- Constructor tag of a `StaticPreprocessingError`, used to state which
failure modes are distinguishable by variant. -/
inductive ErrVariant where
  | ioV
  | parsingV
  | minificationV
  | hashV
  | imageV
deriving DecidableEq

/-- Variant tag of an error value. -/
def errVariant : StaticPreprocessingError → ErrVariant
  | .IOError _ => .ioV
  | .ParsingError _ => .parsingV
  | .MinificationError _ => .minificationV
  | .HashError _ => .hashV
  | .ImageProcessingError _ => .imageV

/-- Variant tag of the error of a result, if any. -/
def resultErrVariant : Except StaticPreprocessingError α → Option ErrVariant
  | .error e => some (errVariant e)
  | .ok _ => none

/-- Rust `Option::ok_or`: converts an option into a result. -/
def okOr (o : Option α) (e : ε) : Except ε α :=
  match o with
  | some a => .ok a
  | none => .error e

/-! ## File model and type detection (`src/lib.rs`) -/

/-- Enumeration `FileType` of `src/lib.rs`. -/
inductive FileType where
  | Image
  | CSS
  | JS
  | Other
deriving DecidableEq

/-- Struct `File` of `src/lib.rs`: leaf file name, detected type, raw bytes. -/
structure File where
  filename : String
  file_type : FileType
  contents : List Nat
deriving DecidableEq

/-- Struct `File` as used by `src/hash.rs`, which addresses the file by its
relative path (field `relative_path`) instead of the bare `filename`; the
two source files disagree on the shape of the struct, so both shapes are
embedded and `hash_file_rename` is stated on this one, exactly as its
source reads it. -/
structure PathFile where
  relative_path : RPath
  file_type : FileType
  contents : List Nat
deriving DecidableEq

/-- Function `detect_file_type` of `src/lib.rs`: case-sensitive extension
match. -/
def detect_file_type (ext : String) : FileType :=
  match ext with
  | "css" => FileType.CSS
  | "js" => FileType.JS
  | "webp" => FileType.Image
  | "jpg" => FileType.Image
  | "jpeg" => FileType.Image
  | "png" => FileType.Image
  | "avif" => FileType.Image
  | _ => FileType.Other

/-- Function `load_file` of `src/lib.rs`.  The filesystem read is passed in
as `readF` (the `fs::read` effect).  Field order of the Rust struct literal
is kept: the file-name check runs first, then the extension check, then the
read. -/
def load_file (readF : RPath → Except IOError (List Nat)) (path : RPath) :
    Except LibError File :=
  match okOr (pathFileName path) (IOError.mk .invalidInput "Invalid file name.") with
  | .error e => .error (.IOError e)
  | .ok filename =>
    match (okOr (pathExtension path)
        (StaticPreprocessingError.IOError
          (IOError.mk .invalidInput "Invalid file extension."))).map detect_file_type with
    | .error e => .error e
    | .ok ft =>
      match readF path with
      | .error e => .error (.IOError e)
      | .ok contents => .ok (File.mk filename ft contents)

/-! ## CSS transformer (`src/lib.rs`, `minify_css`)

The parser, minifier and printer of the `lightningcss` crate are external
collaborators; `minify_css` is embedded parameterically over them. -/

/-- Interface of the external CSS collaborator: parse, minify and print,
with the error already rendered to a string (the source always applies
`to_string()` to it). -/
structure CssApi where
  Ast : Type
  parse : String → Except String Ast
  minifyAst : Ast → Except String Ast
  toCss : Ast → Except String String

/-- Function `minify_css` of `src/lib.rs`: non-CSS files pass through
unchanged; for CSS, decode UTF-8 (ParsingError on failure), parse
(ParsingError), minify (MinificationError) and print minified
(MinificationError), replacing the byte content. -/
def minify_css (api : CssApi) (f : File) : Except LibError File :=
  if f.file_type ≠ FileType.CSS then .ok f
  else
    match decodeUtf8Str? f.contents with
    | none => .error (.ParsingError (utf8ErrorMsg f.contents))
    | some contents =>
      match api.parse contents with
      | .error e => .error (.ParsingError e)
      | .ok ss =>
        match api.minifyAst ss with
        | .error e => .error (.MinificationError e)
        | .ok ss2 =>
          match api.toCss ss2 with
          | .error e => .error (.MinificationError e)
          | .ok code => .ok { f with contents := strToBytes code }

/-! ## Hasher/renamer (`src/hash.rs`, `hash_file_rename`) -/

/-- Function `hash_file_rename` of `src/hash.rs`: BLAKE3-hash the contents,
keep the original extension, and replace the final path component with
`{hex-digest}.{extension}`; errors with kind `InvalidInput` when the
extension or the parent directory is missing. -/
def hash_file_rename (file : PathFile) : Except IOError PathFile :=
  let hash := blake3Hex file.contents
  match okOr (pathExtension file.relative_path)
      (IOError.mk .invalidInput "Invalid file extension.") with
  | .error e => .error e
  | .ok ext =>
    let new_name := hash ++ "." ++ ext
    match okOr ((pathParent file.relative_path).map (· ++ [new_name]))
        (IOError.mk .invalidInput "No parent directory") with
    | .error e => .error e
    | .ok new_relative => .ok { file with relative_path := new_relative }

/-! ## A concrete model of the external CSS collaborator

The `lightningcss` crate is not part of the repository; the spec treats it
as a black box `parse -> AST | ParseError`, `minify`, `print`.  For claims
that need concrete pipeline outputs, a plain-text model is used: parsing
checks brace balance, minification strips comments and redundant
whitespace and drops a semicolon directly before a closing brace, matching
the compact output documented by the repository tests
(`body { color: red; }  /* comment */` prints as `body{color:red}`). -/

/-- Whether a character is CSS whitespace. -/
def isCssWs (c : Char) : Bool :=
  c = ' ' || c = Char.ofNat 10 || c = Char.ofNat 9 || c = Char.ofNat 13

/-- Whether a character is CSS punctuation around which whitespace is
insignificant. -/
def isCssPunct (c : Char) : Bool :=
  c = Char.ofNat 123 || c = Char.ofNat 125 || c = ':' || c = ';' || c = ','

/-- Removal of block comments; the flag tracks being inside a comment. -/
def stripComments : Bool → List Char → List Char
  | false, '/' :: '*' :: r => stripComments true r
  | false, c :: r => c :: stripComments false r
  | true, '*' :: '/' :: r => stripComments false r
  | true, _ :: r => stripComments true r
  | _, [] => []

/-- Collapse of whitespace runs to single spaces; the flag tracks whether
the previous kept character was whitespace. -/
def squeezeWs : Bool → List Char → List Char
  | _, [] => []
  | inWs, c :: r =>
    if isCssWs c then
      if inWs then squeezeWs true r else ' ' :: squeezeWs true r
    else c :: squeezeWs false r

/-- Removal of a space standing directly after punctuation, tracking the
previously kept character. -/
def dropAfterAux : Option Char → List Char → List Char
  | _, [] => []
  | prev, c :: r =>
    if c = ' ' && (match prev with | some p => isCssPunct p | none => false) then
      dropAfterAux prev r
    else c :: dropAfterAux (some c) r

/-- Removal of spaces adjacent to punctuation on either side: one forward
pass removes spaces after punctuation, one pass over the reversal removes
spaces before it. -/
def dropSpacesNextToPunct (l : List Char) : List Char :=
  (dropAfterAux none (dropAfterAux none l).reverse).reverse

/-- Removal of leading and trailing spaces. -/
def trimSpaces (l : List Char) : List Char :=
  ((l.dropWhile (· = ' ')).reverse.dropWhile (· = ' ')).reverse

/-- Removal, over a reversed character list, of semicolons standing
directly before a closing brace. -/
def dropSemiRevAux : Bool → List Char → List Char
  | _, [] => []
  | prevClose, c :: r =>
    if c = ';' && prevClose then dropSemiRevAux prevClose r
    else c :: dropSemiRevAux (c = Char.ofNat 125) r

/-- Removal of a semicolon standing directly before a closing brace. -/
def dropSemis (l : List Char) : List Char :=
  (dropSemiRevAux false l.reverse).reverse

/-- Modelled from the spec: the external minifier-and-printer behaviour
(strip comments and whitespace, compact serialization) of the
`lightningcss` collaborator, which is not part of this repository. -/
def specMinifyText (s : String) : String :=
  String.mk (dropSemis (trimSpaces (dropSpacesNextToPunct
    (squeezeWs true (stripComments false s.data)))))

/-- Brace balance check used as the parse model. -/
def balancedBraces : List Char → Nat → Bool
  | [], n => n = 0
  | c :: r, n =>
    if c = Char.ofNat 123 then balancedBraces r (n + 1)
    else if c = Char.ofNat 125 then
      if n = 0 then false else balancedBraces r (n - 1)
    else balancedBraces r n

/-- Modelled from the spec: the external CSS parser of the collaborator; a
stylesheet with unbalanced braces fails to parse. -/
def specParse (s : String) : Except String String :=
  if balancedBraces s.data 0 then .ok s else .error "Unexpected end of input"

/-- Modelled from the spec: a concrete instance of the external CSS
collaborator interface, used to evaluate the pipeline on concrete inputs. -/
def specCssApi : CssApi where
  Ast := String
  parse := specParse
  minifyAst := fun a => .ok a
  toCss := fun a => .ok (specMinifyText a)

/-! ## Output filesystem, manifest and writer (`src/lib.rs`)

The output side of the filesystem is a state: a set of directories and a
list of written files (path and bytes).  `fs::write` replaces an existing
file silently, `fs::create_dir_all` succeeds whether or not the directory
exists and creates missing ancestors, failing only when a regular file
occupies the directory path or one of its ancestors. -/

/-- Output-side filesystem state. -/
structure OutFS where
  dirs : List RPath
  files : List (RPath × List Nat)
deriving DecidableEq

/-- Model of std `fs::write`: silent replacement of an existing file. -/
def writeFS (p : RPath) (c : List Nat) (fs : OutFS) : OutFS :=
  ⟨fs.dirs, (fs.files.filter (fun kv => kv.1 ≠ p)) ++ [(p, c)]⟩

/-- Function `save_file` of `src/lib.rs`: the file is written flat, directly
under the output directory, at its (hashed) `filename`. -/
def save_file (output_dir : RPath) (f : File) (fs : OutFS) : OutFS :=
  writeFS (output_dir ++ [f.filename]) f.contents fs

/-- Nonempty ancestors of a path, the path itself included. -/
def pathAncestors (p : RPath) : List RPath :=
  (List.range p.length).map (fun i => p.take (i + 1))

/-- Whether the creation of a directory path is blocked by a regular file
sitting at the path or at one of its ancestors. -/
def createBlocked (p : RPath) (fs : OutFS) : Bool :=
  (pathAncestors p).any (fun q => fs.files.any (fun kv => kv.1 = q))

/-- Model of std `fs::create_dir_all`: succeeds whether or not the
directory already exists, creating missing ancestors; errors only when
blocked by a regular file. -/
def create_dir_all (p : RPath) (fs : OutFS) : Except IOError OutFS :=
  if createBlocked p fs then
    .error (IOError.mk .alreadyExists "cannot create directory")
  else
    .ok ⟨fs.dirs ++ (pathAncestors p).filter (fun q => ¬ q ∈ fs.dirs), fs.files⟩

/-- Manifest: association list from original path string to hashed name,
modelling the `HashMap` of `src/lib.rs` (keyed lookup, insert replaces). -/
abbrev Manifest := List (String × String)

/-- Keyed insert of the manifest `HashMap`: replaces an existing entry,
otherwise appends. -/
def manifestInsert (k v : String) (m : Manifest) : Manifest :=
  if m.any (fun kv => kv.1 = k) then
    m.map (fun kv => if kv.1 = k then (k, v) else kv)
  else m ++ [(k, v)]

/-- Keyed lookup in the manifest. -/
def manifestLookup (m : Manifest) (k : String) : Option String :=
  (m.find? (fun kv => kv.1 = k)).map (fun kv => kv.2)

/-- Modelled from the spec: the external JSON serializer
(`serde_json::to_string_pretty`), a pretty-printed object of string keys
and values; its exact text is irrelevant to the claims. -/
def serializeManifest (m : Manifest) : String :=
  "\x7b\n" ++
    String.intercalate ",\n"
      (m.map (fun kv => "  \x22" ++ kv.1 ++ "\x22: \x22" ++ kv.2 ++ "\x22")) ++
  "\n\x7d"

/-- Function `write_manifest` of `src/lib.rs`: serializes the manifest and
writes it to `manifest.json` at the output root. -/
def write_manifest (output_dir : RPath) (m : Manifest) (fs : OutFS) : OutFS :=
  writeFS (output_dir ++ ["manifest.json"]) (strToBytes (serializeManifest m)) fs

/-! ## Input filesystem and traversal (`src/lib.rs`, `for_each_file`)

The input side is a finite tree: a regular file carries the outcome of
reading it (bytes, or the I/O error the read would produce), a directory
carries its entries.  `for_each_file` recurses exactly as the source does:
directories are descended into, everything else is passed to the
callback. -/

/-- Input filesystem tree. -/
inductive FSTree where
  | file (name : String) (content : Except IOError (List Nat))
  | dir (name : String) (entries : List FSTree)

/-- Name of the root node of a tree. -/
def FSTree.nodeName : FSTree → String
  | .file n _ => n
  | .dir n _ => n

mutual

/-- Read outcome stored in the tree for a path, if the path names a file. -/
def findRead : FSTree → RPath → Option (Except IOError (List Nat))
  | .file n c, p => if p = [n] then some c else none
  | .dir n es, p =>
    match p with
    | q :: rest => if q = n then findReadList es rest else none
    | [] => none

/-- List version of `findRead` over sibling entries. -/
def findReadList : List FSTree → RPath → Option (Except IOError (List Nat))
  | [], _ => none
  | t :: ts, p =>
    match findRead t p with
    | some c => some c
    | none => findReadList ts p

end

/-- Model of `fs::read` against a tree: a path not naming a file yields a
not-found error. -/
def treeRead (t : FSTree) (p : RPath) : Except IOError (List Nat) :=
  (findRead t p).getD (.error (IOError.mk .notFound "No such file or directory"))

mutual

/-- Function `for_each_file` of `src/lib.rs`, over a tree node whose path is
`base ++ [name]`: directories are recursed into entry by entry, stopping at
the first error; non-directories are passed to the callback.  The state
`s` threads the mutations the callback performs (manifest and output
filesystem); the second component is the error, if any. -/
def for_each_file (f : RPath → σ → σ × Option ε) :
    FSTree → RPath → σ → σ × Option ε
  | .file name _, base, s => f (base ++ [name]) s
  | .dir name es, base, s => forEachEntry f es (base ++ [name]) s

/-- Iteration of `for_each_file` over the entries of a directory, stopping
at the first error, as the `for` loop with `?` does in the source. -/
def forEachEntry (f : RPath → σ → σ × Option ε) :
    List FSTree → RPath → σ → σ × Option ε
  | [], _, s => (s, none)
  | t :: ts, base, s =>
    match for_each_file f t base s with
    | (s1, none) => forEachEntry f ts base s1
    | (s1, some e) => (s1, some e)

end

mutual

/-- Paths of the regular files a traversal of the tree visits, in traversal
order. -/
def discoveredFiles : FSTree → RPath → List RPath
  | .file name _, base => [base ++ [name]]
  | .dir name es, base => discoveredList es (base ++ [name])

/-- List version of `discoveredFiles` over sibling entries. -/
def discoveredList : List FSTree → RPath → List RPath
  | [], _ => []
  | t :: ts, base => discoveredFiles t base ++ discoveredList ts base

end

/-! ## Orchestrator (`src/lib.rs`, `process_file` and `process_directory`) -/

/-- Bridge between the two `File` shapes of the sources: `process_file` in
`src/lib.rs` passes its `File` (which carries only the leaf `filename`)
through `hash_file_rename` of `src/hash.rs` (which addresses the file by a
relative path); the leaf name plays the role of the one-component relative
path, and the renamed leaf is read back from the result. -/
def hash_file_rename_lib (f : File) : Except IOError File :=
  match hash_file_rename (PathFile.mk [f.filename] f.file_type f.contents) with
  | .error e => .error e
  | .ok g =>
      .ok (File.mk ((pathFileName g.relative_path).getD "") g.file_type g.contents)

/-- Per-file pipeline of `process_file`: load, transform, hash/rename.  All
three steps run before any state is mutated. -/
def filePipeline (api : CssApi) (readF : RPath → Except IOError (List Nat))
    (path : RPath) : Except LibError File :=
  match load_file readF path with
  | .error e => .error e
  | .ok input =>
    match minify_css api input with
    | .error e => .error e
    | .ok minified =>
      match hash_file_rename_lib minified with
      | .error e => .error (.IOError e)
      | .ok h => .ok h

/-- Error of the per-file pipeline, if any; it does not depend on the
accumulated state. -/
def fileError? (api : CssApi) (readF : RPath → Except IOError (List Nat))
    (path : RPath) : Option LibError :=
  match filePipeline api readF path with
  | .error e => some e
  | .ok _ => none

/-- State threaded through the run: output filesystem plus manifest. -/
structure PState where
  fs : OutFS
  manifest : Manifest
deriving DecidableEq

/-- Function `process_file` of `src/lib.rs`: on pipeline success, one
manifest entry is inserted, keyed by the string of the full traversed path
(`path.to_string_lossy()`), with the hashed leaf filename as value, and
the file is saved flat under the output root; on pipeline failure the
state is untouched and the error is returned. -/
def process_file (api : CssApi) (readF : RPath → Except IOError (List Nat))
    (output_dir : RPath) (path : RPath) (st : PState) : PState × Option LibError :=
  match filePipeline api readF path with
  | .error e => (st, some e)
  | .ok hashed =>
      (PState.mk (save_file output_dir hashed st.fs)
        (manifestInsert (pathToString path) hashed.filename st.manifest), none)

/-- Result of a whole run: final output filesystem, the manifest
accumulator, and the terminal error, if any. -/
structure RunResult where
  fs : OutFS
  manifest : Manifest
  err : Option LibError
deriving DecidableEq

/-- Continuation of `process_directory` after the output directory has been
created: traverse, then, only when no error occurred, serialize and write
the manifest. -/
def processRun (api : CssApi) (readF : RPath → Except IOError (List Nat))
    (tree : FSTree) (base : RPath) (output_dir : RPath) (fs1 : OutFS) : RunResult :=
  match for_each_file (process_file api readF output_dir) tree base (PState.mk fs1 []) with
  | (st, some e) => RunResult.mk st.fs st.manifest (some e)
  | (st, none) => RunResult.mk (write_manifest output_dir st.manifest st.fs) st.manifest none

/-- Function `process_directory` of `src/lib.rs`: create the output root
idempotently, start from an empty manifest, process every file under the
input root (whose tree node is `tree`, its path being
`base ++ [tree.nodeName]`), and write `manifest.json` only after a fully
successful traversal. -/
def process_directory (api : CssApi) (readF : RPath → Except IOError (List Nat))
    (tree : FSTree) (base : RPath) (output_dir : RPath) (fs0 : OutFS) : RunResult :=
  match create_dir_all output_dir fs0 with
  | .error e => RunResult.mk fs0 [] (some (.IOError e))
  | .ok fs1 => processRun api readF tree base output_dir fs1

/-- Sequential fold of a per-path action over a list of paths, stopping at
the first error; the reference form the traversal is proved equal to. -/
def runFiles (f : RPath → σ → σ × Option ε) : List RPath → σ → σ × Option ε
  | [], s => (s, none)
  | p :: ps, s =>
    match f p s with
    | (s1, none) => runFiles f ps s1
    | (s1, some e) => (s1, some e)

/-! ## General lemmas -/

/-- Parent of a path extended by one component. -/
theorem pathParent_concat (l : RPath) (a : String) : pathParent (l ++ [a]) = some l := by
  have h : (l ++ [a]).isEmpty = false := by cases l <;> rfl
  simp [pathParent, h, List.dropLast_concat]

/-- File name of a path extended by one component. -/
theorem pathFileName_concat (l : RPath) (a : String) :
    pathFileName (l ++ [a]) = some a := by
  simp [pathFileName]

/-- Full characterization of `hash_file_rename`: with an extension the new
path is the parent joined with `{hex-digest}.{extension}`; without one, or
without a parent, it is an `InvalidInput` error. -/
theorem hash_file_rename_spec (f : PathFile) :
    hash_file_rename f =
      match pathExtension f.relative_path with
      | none => .error (IOError.mk .invalidInput "Invalid file extension.")
      | some e =>
        match pathParent f.relative_path with
        | none => .error (IOError.mk .invalidInput "No parent directory")
        | some par =>
          .ok (PathFile.mk (par ++ [blake3Hex f.contents ++ "." ++ e])
            f.file_type f.contents) := by
  cases hext : pathExtension f.relative_path with
  | none => simp [hash_file_rename, okOr, hext]
  | some e =>
    cases hpar : pathParent f.relative_path with
    | none => simp [hash_file_rename, okOr, hext, hpar]
    | some par => simp [hash_file_rename, okOr, hext, hpar]

/-- Splitting `runFiles` over an appended list of paths. -/
theorem runFiles_append {σ ε : Type} (f : RPath → σ → σ × Option ε)
    (l1 l2 : List RPath) (s : σ) :
    runFiles f (l1 ++ l2) s =
      match runFiles f l1 s with
      | (s1, none) => runFiles f l2 s1
      | (s1, some e) => (s1, some e) := by
  induction l1 generalizing s with
  | nil => rfl
  | cons p ps ih =>
    rcases h : f p s with ⟨s1, o⟩
    cases o with
    | none =>
      simp only [List.cons_append, runFiles, h]
      exact ih s1
    | some e => simp only [List.cons_append, runFiles, h]

mutual

/-- The recursive traversal equals the flat fold over the discovered files. -/
theorem for_each_eq_runFiles {σ ε : Type} (f : RPath → σ → σ × Option ε)
    (t : FSTree) (base : RPath) (s : σ) :
    for_each_file f t base s = runFiles f (discoveredFiles t base) s := by
  cases t with
  | file name c =>
    rcases h : f (base ++ [name]) s with ⟨s1, o⟩
    cases o <;> simp only [for_each_file, discoveredFiles, runFiles, h]
  | dir name es =>
    simp only [for_each_file, discoveredFiles]
    exact forEachEntry_eq_runFiles f es (base ++ [name]) s

/-- List version of `for_each_eq_runFiles`. -/
theorem forEachEntry_eq_runFiles {σ ε : Type} (f : RPath → σ → σ × Option ε)
    (es : List FSTree) (base : RPath) (s : σ) :
    forEachEntry f es base s = runFiles f (discoveredList es base) s := by
  cases es with
  | nil => rfl
  | cons t ts =>
    simp only [forEachEntry, discoveredList, runFiles_append,
      for_each_eq_runFiles f t base s]
    rcases h : runFiles f (discoveredFiles t base) s with ⟨s1, o⟩
    cases o with
    | none => exact forEachEntry_eq_runFiles f ts base s1
    | some e => rfl

end

/-- The error of a fold of `process_file` is the error of the first failing
file, independent of the accumulated state: the run is fail-fast. -/
theorem runFiles_processFile_err (api : CssApi)
    (readF : RPath → Except IOError (List Nat)) (out : RPath)
    (ps : List RPath) (st : PState) :
    (runFiles (process_file api readF out) ps st).2 =
      ps.findSome? (fileError? api readF) := by
  induction ps generalizing st with
  | nil => rfl
  | cons p ps ih =>
    simp only [runFiles, List.findSome?_cons]
    cases hp : filePipeline api readF p with
    | error e => simp [process_file, fileError?, hp]
    | ok h => simp [process_file, fileError?, hp, ih]

/-- Keys of a keyed insert: unchanged when the key is present, appended
otherwise. -/
theorem manifestInsert_keys (k v : String) (m : Manifest) :
    (manifestInsert k v m).map Prod.fst =
      if m.any (fun kv => kv.1 = k) then m.map Prod.fst
      else m.map Prod.fst ++ [k] := by
  by_cases h : m.any (fun kv => kv.1 = k)
  · simp only [manifestInsert, h, if_true, List.map_map]
    refine List.map_congr_left ?_
    intro kv _
    by_cases hk : kv.1 = k
    · simp [hk]
    · simp [hk]
  · simp [manifestInsert, h]

/-- Fresh keyed insert appends the entry. -/
theorem manifestInsert_fresh (k v : String) (m : Manifest)
    (h : ¬ k ∈ m.map Prod.fst) : manifestInsert k v m = m ++ [(k, v)] := by
  have hany : m.any (fun kv => kv.1 = k) = false := by
    rw [List.any_eq_false]
    intro kv hkv
    simp only [decide_eq_true_eq]
    intro hk
    exact h (List.mem_map.mpr ⟨kv, hkv, hk⟩)
  simp [manifestInsert, hany]

/-- An existing key survives any keyed insert. -/
theorem manifestInsert_keys_mono (k0 k v : String) (m : Manifest)
    (h : k0 ∈ m.map Prod.fst) : k0 ∈ (manifestInsert k v m).map Prod.fst := by
  rw [manifestInsert_keys]
  by_cases hany : m.any (fun kv => kv.1 = k)
  · simpa [hany] using h
  · simp only [hany]
    exact List.mem_append_left _ h

/-- The inserted key is a key of the result. -/
theorem manifestInsert_key_mem (k v : String) (m : Manifest) :
    k ∈ (manifestInsert k v m).map Prod.fst := by
  rw [manifestInsert_keys]
  by_cases hany : m.any (fun kv => kv.1 = k)
  · simp only [hany, if_true]
    rcases List.any_eq_true.mp hany with ⟨kv, hkv, hk⟩
    exact List.mem_map.mpr ⟨kv, hkv, by simpa using hk⟩
  · simp [hany]

/-- Hashed name of the per-file pipeline output; meaningful on success. -/
def pipelineName (api : CssApi) (readF : RPath → Except IOError (List Nat))
    (p : RPath) : String :=
  match filePipeline api readF p with
  | .ok h => h.filename
  | .error _ => ""

/-- On an all-successful list of fresh, pairwise distinct keys, the fold
appends exactly one manifest entry per file, keyed by the full path string
with the hashed filename as value. -/
theorem runFiles_success_manifest (api : CssApi)
    (readF : RPath → Except IOError (List Nat)) (out : RPath)
    (ps : List RPath) (st : PState)
    (hall : ∀ p ∈ ps, fileError? api readF p = none)
    (hfresh : ∀ p ∈ ps, ¬ (pathToString p) ∈ st.manifest.map Prod.fst)
    (hnodup : (ps.map pathToString).Nodup) :
    (runFiles (process_file api readF out) ps st).1.manifest =
      st.manifest ++ ps.map (fun p => (pathToString p, pipelineName api readF p)) := by
  induction ps generalizing st with
  | nil => simp [runFiles]
  | cons p ps ih =>
    have hp0 : fileError? api readF p = none := hall p (List.mem_cons_self p ps)
    rcases hpipe : filePipeline api readF p with e | h
    · rw [fileError?, hpipe] at hp0
      exact absurd hp0 (by simp)
    · have hstep : process_file api readF out p st =
          (PState.mk (save_file out h st.fs)
            (manifestInsert (pathToString p) h.filename st.manifest), none) := by
        simp [process_file, hpipe]
      have hfreshp : ¬ (pathToString p) ∈ st.manifest.map Prod.fst :=
        hfresh p (List.mem_cons_self p ps)
      have hins : manifestInsert (pathToString p) h.filename st.manifest =
          st.manifest ++ [(pathToString p, h.filename)] :=
        manifestInsert_fresh _ _ _ hfreshp
      have hnodup' : (ps.map pathToString).Nodup := by
        simpa using hnodup.of_cons
      have hhead : ∀ q ∈ ps, pathToString q ≠ pathToString p := by
        intro q hq hqp
        have : pathToString p ∈ ps.map pathToString :=
          List.mem_map.mpr ⟨q, hq, hqp⟩
        exact (List.nodup_cons.mp (by simpa using hnodup)).1 this
      have hfresh' : ∀ q ∈ ps,
          ¬ (pathToString q) ∈
            (manifestInsert (pathToString p) h.filename st.manifest).map Prod.fst := by
        intro q hq hmem
        rw [hins] at hmem
        simp only [List.map_append, List.map_cons, List.map_nil,
          List.mem_append, List.mem_singleton] at hmem
        rcases hmem with hmem | hmem
        · exact hfresh q (List.mem_cons_of_mem p hq) hmem
        · exact hhead q hq hmem
      have hall' : ∀ q ∈ ps, fileError? api readF q = none :=
        fun q hq => hall q (List.mem_cons_of_mem p hq)
      simp only [runFiles, hstep]
      rw [ih _ hall' hfresh' hnodup']
      simp only [PState.mk.injEq]
      rw [hins]
      simp [pipelineName, hpipe, List.append_assoc]

/-- During a fold of `process_file`, the only new file names in the output
filesystem are `out ++ [hashed filename]` for successfully processed
files. -/
theorem runFiles_files_names (api : CssApi)
    (readF : RPath → Except IOError (List Nat)) (out : RPath)
    (ps : List RPath) (st : PState) (q : RPath)
    (hq : q ∈ (runFiles (process_file api readF out) ps st).1.fs.files.map Prod.fst) :
    q ∈ st.fs.files.map Prod.fst ∨
      ∃ p h, filePipeline api readF p = .ok h ∧ q = out ++ [h.filename] := by
  induction ps generalizing st with
  | nil => exact Or.inl hq
  | cons p ps ih =>
    simp only [runFiles] at hq
    cases hpipe : filePipeline api readF p with
    | error e =>
      rw [show process_file api readF out p st = (st, some e) by
        simp [process_file, hpipe]] at hq
      exact Or.inl hq
    | ok h =>
      rw [show process_file api readF out p st =
          (PState.mk (save_file out h st.fs)
            (manifestInsert (pathToString p) h.filename st.manifest), none) by
        simp [process_file, hpipe]] at hq
      rcases ih _ hq with hin | hnew
      · simp only [save_file, writeFS, List.map_append, List.mem_append] at hin
        rcases hin with hin | hin
        · rcases List.mem_map.mp hin with ⟨kv, hkv, hkv2⟩
          exact Or.inl (List.mem_map.mpr ⟨kv, (List.mem_filter.mp hkv).1, hkv2⟩)
        · simp only [List.map_cons, List.map_nil, List.mem_singleton] at hin
          exact Or.inr ⟨p, h, hpipe, hin⟩
      · exact Or.inr hnew

/-- Existing manifest keys survive a fold of `process_file`. -/
theorem runFiles_manifest_keys_mono (api : CssApi)
    (readF : RPath → Except IOError (List Nat)) (out : RPath)
    (ps : List RPath) (st : PState) (k : String)
    (hk : k ∈ st.manifest.map Prod.fst) :
    k ∈ (runFiles (process_file api readF out) ps st).1.manifest.map Prod.fst := by
  induction ps generalizing st with
  | nil => exact hk
  | cons p ps ih =>
    simp only [runFiles]
    cases hpipe : filePipeline api readF p with
    | error e =>
      rw [show process_file api readF out p st = (st, some e) by
        simp [process_file, hpipe]]
      exact hk
    | ok h =>
      rw [show process_file api readF out p st =
          (PState.mk (save_file out h st.fs)
            (manifestInsert (pathToString p) h.filename st.manifest), none) by
        simp [process_file, hpipe]]
      exact ih _ (manifestInsert_keys_mono _ _ _ _ hk)

/-- On an error-free fold, every processed path has a manifest entry. -/
theorem runFiles_success_keys_present (api : CssApi)
    (readF : RPath → Except IOError (List Nat)) (out : RPath)
    (ps : List RPath) (st : PState)
    (hall : ∀ p ∈ ps, fileError? api readF p = none) :
    ∀ p ∈ ps, pathToString p ∈
      (runFiles (process_file api readF out) ps st).1.manifest.map Prod.fst := by
  induction ps generalizing st with
  | nil => intro p hp; exact absurd hp (List.not_mem_nil p)
  | cons p0 ps ih =>
    intro p hp
    have hp0 : fileError? api readF p0 = none := hall p0 (List.mem_cons_self p0 ps)
    rcases hpipe : filePipeline api readF p0 with e | h
    · rw [fileError?, hpipe] at hp0
      exact absurd hp0 (by simp)
    · simp only [runFiles]
      rw [show process_file api readF out p0 st =
          (PState.mk (save_file out h st.fs)
            (manifestInsert (pathToString p0) h.filename st.manifest), none) by
        simp [process_file, hpipe]]
      rcases List.mem_cons.mp hp with hpeq | hptail
      · subst hpeq
        exact runFiles_manifest_keys_mono api readF out ps _ _
          (manifestInsert_key_mem _ _ _)
      · exact ih _ (fun q hq => hall q (List.mem_cons_of_mem p0 hq)) p hptail

/-- When a `findSome?` over a list yields nothing, the function yields
nothing on every element. -/
theorem findSome?_none_of_all {α β : Type} (f : α → Option β) :
    ∀ (l : List α), l.findSome? f = none → ∀ a ∈ l, f a = none := by
  intro l
  induction l with
  | nil => intro _ a ha; exact absurd ha (List.not_mem_nil a)
  | cons x xs ih =>
    intro h a ha
    rw [List.findSome?_cons] at h
    rcases hx : f x with _ | b
    · rcases List.mem_cons.mp ha with rfl | hmem
      · exact hx
      · rw [hx] at h; exact ih h a hmem
    · rw [hx] at h; cases h

/-- Keyed lookup in a manifest built from pairwise distinct keys. -/
theorem manifestLookup_map_pairs (g v : RPath → String) :
    ∀ (ps : List RPath), (ps.map g).Nodup → ∀ p ∈ ps,
      manifestLookup (ps.map fun q => (g q, v q)) (g p) = some (v p) := by
  intro ps
  induction ps with
  | nil => intro _ p hp; exact absurd hp (List.not_mem_nil p)
  | cons q qs ih =>
    intro hnodup p hp
    rcases List.mem_cons.mp hp with rfl | hmem
    · simp [manifestLookup, List.find?]
    · have hne : g q ≠ g p := by
        intro hgp
        exact (List.nodup_cons.mp hnodup).1
          (hgp ▸ List.mem_map.mpr ⟨p, hmem, rfl⟩)
      have hdec : (decide (g q = g p)) = false := decide_eq_false hne
      simp only [List.map_cons, manifestLookup, List.find?, hdec]
      exact ih (List.nodup_cons.mp hnodup).2 p hmem

/-! ## Length of the hexadecimal digest

The hashed file names have length at least 65 (64 hex digits, a dot and
the extension), so they can never collide with `manifest.json`.  The chain
of lemmas below establishes `(blake3Hex data).length = 64`. -/

/-- The compression function returns exactly eight words. -/
theorem compress_length (h m : List Nat) (t b fl : Nat) :
    (compress h m t b fl).length = 8 := by
  simp [compress]

/-- Chunk folding preserves the eight-word shape. -/
theorem chunkCVAux_length (counter : Nat) (root : Bool) :
    ∀ (bs : List (List Nat)) (h : List Nat), ∀ (first : Bool), h.length = 8 →
      (chunkCVAux counter root h first bs).length = 8 := by
  intro bs
  induction bs with
  | nil => intro h first hh; simpa [chunkCVAux] using hh
  | cons b bs ih =>
    intro h first hh
    cases bs with
    | nil => simp [chunkCVAux, compress_length]
    | cons b2 bs2 =>
      simp only [chunkCVAux]
      exact ih _ false (compress_length _ _ _ _ _)

/-- A chunk chaining value has eight words. -/
theorem chunkCV_length (data : List Nat) (counter : Nat) (root : Bool) :
    (chunkCV data counter root).length = 8 :=
  chunkCVAux_length counter root (chunkBlocks data) blake3IV true rfl

/-- A parent chaining value has eight words. -/
theorem parentCV_length (l r : List Nat) (root : Bool) :
    (parentCV l r root).length = 8 :=
  compress_length _ _ _ _ _

/-- The hash output always consists of eight words. -/
theorem blake3Words_length (data : List Nat) : (blake3Words data).length = 8 := by
  unfold blake3Words
  split
  · exact chunkCV_length _ _ _
  · exact parentCV_length _ _ _

/-- Word serialization produces four bytes per word. -/
theorem wordsToBytesLE_length (ws : List Nat) :
    (wordsToBytesLE ws).length = 4 * ws.length := by
  induction ws with
  | nil => rfl
  | cons w ws ih =>
    simp only [wordsToBytesLE, List.foldr_cons] at *
    simp [ih]
    omega

/-- Hexadecimal encoding produces two characters per byte. -/
theorem bytesToHexChars_length (bs : List Nat) :
    (bytesToHexChars bs).length = 2 * bs.length := by
  induction bs with
  | nil => rfl
  | cons b bs ih =>
    simp only [bytesToHexChars, List.foldr_cons] at *
    simp [ih]
    omega

/-- The hexadecimal digest has 64 characters. -/
theorem blake3Hex_length (data : List Nat) : (blake3Hex data).length = 64 := by
  have h1 : (blake3Hex data).length =
      (bytesToHexChars (wordsToBytesLE (blake3Words data))).length := rfl
  rw [h1, bytesToHexChars_length, wordsToBytesLE_length, blake3Words_length]

/-- A hashed filename is never `manifest.json`: it is too long. -/
theorem hashedName_ne_manifest (c : List Nat) (e : String) :
    blake3Hex c ++ "." ++ e ≠ "manifest.json" := by
  intro heq
  have hlen := congrArg String.length heq
  rw [String.length_append, String.length_append, blake3Hex_length] at hlen
  have h13 : ("manifest.json").length = 13 := rfl
  have h1 : (".").length = 1 := rfl
  omega

/-- Characterization of the bridged hash/rename step on the `filename`
field: the new leaf name is `{hex-digest}.{extension}`. -/
theorem hash_file_rename_lib_spec (m : File) :
    hash_file_rename_lib m =
      match extOfFileName m.filename with
      | none => .error (IOError.mk .invalidInput "Invalid file extension.")
      | some e =>
        .ok (File.mk (blake3Hex m.contents ++ "." ++ e) m.file_type m.contents) := by
  unfold hash_file_rename_lib
  rw [hash_file_rename_spec]
  have hext : pathExtension [m.filename] = extOfFileName m.filename := rfl
  rw [hext]
  cases hcase : extOfFileName m.filename with
  | none => rfl
  | some e =>
    have hpar : pathParent [m.filename] = some [] := rfl
    rw [hpar]
    simp [pathFileName]

/-- Every successful pipeline output carries a `{hex-digest}.{extension}`
filename. -/
theorem filePipeline_ok_filename (api : CssApi)
    (readF : RPath → Except IOError (List Nat)) (p : RPath) (h : File)
    (hok : filePipeline api readF p = .ok h) :
    ∃ c e, h.filename = blake3Hex c ++ "." ++ e := by
  unfold filePipeline at hok
  split at hok
  · exact absurd hok (by simp)
  · split at hok
    · exact absurd hok (by simp)
    · split at hok
      · exact absurd hok (by simp)
      · rename_i x1 input heq1 x2 minified heq2 x3 g hh
        cases hok
        rw [hash_file_rename_lib_spec] at hh
        rcases hcase : extOfFileName minified.filename with _ | e
        · rw [hcase] at hh; cases hh
        · rw [hcase] at hh
          cases hh
          exact ⟨minified.contents, e, rfl⟩

/-- The manifest file is present after `write_manifest`. -/
theorem write_manifest_mem (out : RPath) (m : Manifest) (fs : OutFS) :
    (out ++ ["manifest.json"]) ∈ (write_manifest out m fs).files.map Prod.fst := by
  simp [write_manifest, writeFS]

/-- Behaviour of the run after directory creation: the error is the first
per-file error in traversal order; on failure `manifest.json` is absent
from the output (it is fresh and hashed names are too long to collide); on
success it is present and every discovered file has a manifest entry. -/
theorem processRun_spec (api : CssApi)
    (readF : RPath → Except IOError (List Nat)) (tree : FSTree)
    (base out : RPath) (fs1 : OutFS)
    (hfresh : ¬ (out ++ ["manifest.json"]) ∈ fs1.files.map Prod.fst) :
    ((processRun api readF tree base out fs1).err =
      (discoveredFiles tree base).findSome? (fileError? api readF)) ∧
    (∀ e, (processRun api readF tree base out fs1).err = some e →
      ¬ (out ++ ["manifest.json"]) ∈
        (processRun api readF tree base out fs1).fs.files.map Prod.fst) ∧
    ((processRun api readF tree base out fs1).err = none →
      (out ++ ["manifest.json"]) ∈
        (processRun api readF tree base out fs1).fs.files.map Prod.fst ∧
      ∀ p ∈ discoveredFiles tree base,
        pathToString p ∈ (processRun api readF tree base out fs1).manifest.map Prod.fst) := by
  unfold processRun
  rw [for_each_eq_runFiles]
  rcases hrun : runFiles (process_file api readF out) (discoveredFiles tree base)
    (PState.mk fs1 []) with ⟨st, o⟩
  have herr : o = (discoveredFiles tree base).findSome? (fileError? api readF) := by
    have h := runFiles_processFile_err api readF out (discoveredFiles tree base)
      (PState.mk fs1 [])
    rw [hrun] at h
    exact h
  cases o with
  | some e =>
    refine ⟨by simp [herr.symm], ?_, ?_⟩
    · intro e1 _ hmem
      simp only [RunResult.fs] at hmem
      rcases runFiles_files_names api readF out (discoveredFiles tree base)
          (PState.mk fs1 []) _ (by rw [hrun]; exact hmem) with hin | ⟨p, h, hok, heqq⟩
      · exact hfresh hin
      · rcases filePipeline_ok_filename api readF p h hok with ⟨c, e2, hfn⟩
        have hdrop := congrArg (List.drop out.length) heqq
        rw [List.drop_left, List.drop_left] at hdrop
        have hmj : h.filename = "manifest.json" := by
          injection hdrop with h1 _
          exact h1.symm
        exact hashedName_ne_manifest c e2 (hfn ▸ hmj)
    · intro hnone
      exact absurd hnone (by simp)
  | none =>
    refine ⟨by simp [herr.symm], ?_, ?_⟩
    · intro e1 habs
      exact absurd habs (by simp)
    · intro _
      constructor
      · exact write_manifest_mem out st.manifest st.fs
      · have hfs : (discoveredFiles tree base).findSome? (fileError? api readF) = none :=
          herr.symm
        have hall := findSome?_none_of_all (fileError? api readF) _ hfs
        intro p hp
        have h := runFiles_success_keys_present api readF out
          (discoveredFiles tree base) (PState.mk fs1 []) hall p hp
        rw [hrun] at h
        exact h

/-- Sample input tree: one text file `a.txt` under the input root `assets`. -/
def sampleTxtTree : FSTree :=
  .dir "assets" [.file "a.txt" (.ok (strToBytes "hi"))]

/-- Sample input tree of the concrete spec example: `css/main.css` with
content `body { margin: 0; }` under the input root `assets`. -/
def sampleCssTree : FSTree :=
  .dir "assets" [.dir "css" [.file "main.css" (.ok (strToBytes "body \x7b margin: 0; \x7d"))]]

/-- Sample input tree with a single unreadable file. -/
def sampleFailTree : FSTree :=
  .dir "assets" [.file "bad.txt" (.error (IOError.mk .permissionDenied "denied"))]

/-- Empty output filesystem. -/
def emptyFS : OutFS := OutFS.mk [] []

/-! ## Claims C2, C3 and C4 -/

/-- C2, counterexample: for the file `a.txt` under input root `assets`, the
manifest key is the full traversed path string `assets/a.txt`, not the
root-relative path `a.txt`; a lookup under the root-relative key fails. -/
theorem c2_counterexample :
    (process_directory specCssApi (treeRead sampleTxtTree) sampleTxtTree []
        ["out"] emptyFS).err = none ∧
    (process_directory specCssApi (treeRead sampleTxtTree) sampleTxtTree []
        ["out"] emptyFS).manifest.map Prod.fst = ["assets/a.txt"] ∧
    manifestLookup (process_directory specCssApi (treeRead sampleTxtTree)
        sampleTxtTree [] ["out"] emptyFS).manifest "a.txt" = none := by
  exact ⟨rfl, rfl, rfl⟩

/-- C2, amended: during a successful run, the manifest holds exactly one
entry per discovered regular file — and none for directories — keyed by the
full traversed path string (input root included, forward-slash separated),
the value being the hashed filename, which is the written path relative to
the output root since files are saved flat under it. -/
theorem c2_manifest_entries (api : CssApi)
    (readF : RPath → Except IOError (List Nat)) (tree : FSTree)
    (base out : RPath) (fs0 : OutFS)
    (hnodup : ((discoveredFiles tree base).map pathToString).Nodup)
    (hsucc : (process_directory api readF tree base out fs0).err = none) :
    (process_directory api readF tree base out fs0).manifest =
      (discoveredFiles tree base).map
        (fun p => (pathToString p, pipelineName api readF p)) ∧
    ∀ p ∈ discoveredFiles tree base, ∃ h, filePipeline api readF p = .ok h ∧
      manifestLookup (process_directory api readF tree base out fs0).manifest
        (pathToString p) = some h.filename := by
  rcases hc : create_dir_all out fs0 with e | fs1
  · have hpd : process_directory api readF tree base out fs0 =
        RunResult.mk fs0 [] (some (.IOError e)) := by
      simp [process_directory, hc]
    rw [hpd] at hsucc
    exact absurd hsucc (by simp)
  · have hpd : process_directory api readF tree base out fs0 =
        processRun api readF tree base out fs1 := by
      simp [process_directory, hc]
    rw [hpd] at hsucc ⊢
    unfold processRun at hsucc ⊢
    rw [for_each_eq_runFiles] at hsucc ⊢
    rcases hrun : runFiles (process_file api readF out) (discoveredFiles tree base)
      (PState.mk fs1 []) with ⟨st, o⟩
    rw [hrun] at hsucc
    cases o with
    | some e =>
      exact absurd (show some e = (none : Option LibError) from hsucc) (by simp)
    | none =>
      have hfs : (discoveredFiles tree base).findSome? (fileError? api readF) = none := by
        have h := runFiles_processFile_err api readF out (discoveredFiles tree base)
          (PState.mk fs1 [])
        rw [hrun] at h
        exact h.symm
      have hall := findSome?_none_of_all (fileError? api readF) _ hfs
      have hmani : st.manifest =
          ([] : Manifest) ++ (discoveredFiles tree base).map
            (fun p => (pathToString p, pipelineName api readF p)) := by
        have h := runFiles_success_manifest api readF out (discoveredFiles tree base)
          (PState.mk fs1 []) hall (by intro p _ hmem; simp at hmem) hnodup
        rw [hrun] at h
        exact h
      rw [List.nil_append] at hmani
      refine ⟨hmani, ?_⟩
      intro p hp
      rcases hpipe : filePipeline api readF p with e | h
      · have hne := hall p hp
        rw [fileError?, hpipe] at hne
        exact absurd hne (by simp)
      · refine ⟨h, rfl, ?_⟩
        have hlook := manifestLookup_map_pairs pathToString
          (pipelineName api readF) (discoveredFiles tree base) hnodup p hp
        show manifestLookup st.manifest (pathToString p) = some h.filename
        rw [hmani, hlook]
        simp [pipelineName, hpipe]

/-- C2, witness: the amended statement at the sample run with one text
file. -/
theorem c2_witness :
    (process_directory specCssApi (treeRead sampleTxtTree) sampleTxtTree []
        ["out"] emptyFS).manifest =
      (discoveredFiles sampleTxtTree []).map
        (fun p => (pathToString p,
          pipelineName specCssApi (treeRead sampleTxtTree) p)) ∧
    ∀ p ∈ discoveredFiles sampleTxtTree [], ∃ h,
      filePipeline specCssApi (treeRead sampleTxtTree) p = .ok h ∧
      manifestLookup (process_directory specCssApi (treeRead sampleTxtTree)
          sampleTxtTree [] ["out"] emptyFS).manifest (pathToString p) =
        some h.filename :=
  c2_manifest_entries specCssApi (treeRead sampleTxtTree) sampleTxtTree []
    ["out"] emptyFS (by decide) (by rfl)

/-- C3: the run is strictly fail-fast.  Its terminal error is the error of
the first failing file in traversal order; when it is present,
`manifest.json` was not written to the output root; when it is absent,
`manifest.json` was written and every discovered file has a manifest
entry. -/
theorem c3_fail_fast (api : CssApi)
    (readF : RPath → Except IOError (List Nat)) (tree : FSTree)
    (base out : RPath) (fs0 : OutFS)
    (hcreate : createBlocked out fs0 = false)
    (hfresh : ¬ (out ++ ["manifest.json"]) ∈ fs0.files.map Prod.fst) :
    ((process_directory api readF tree base out fs0).err =
      (discoveredFiles tree base).findSome? (fileError? api readF)) ∧
    (∀ e, (process_directory api readF tree base out fs0).err = some e →
      ¬ (out ++ ["manifest.json"]) ∈
        (process_directory api readF tree base out fs0).fs.files.map Prod.fst) ∧
    ((process_directory api readF tree base out fs0).err = none →
      (out ++ ["manifest.json"]) ∈
        (process_directory api readF tree base out fs0).fs.files.map Prod.fst ∧
      ∀ p ∈ discoveredFiles tree base,
        pathToString p ∈
          (process_directory api readF tree base out fs0).manifest.map Prod.fst) := by
  have hpd : process_directory api readF tree base out fs0 =
      processRun api readF tree base out
        (OutFS.mk (fs0.dirs ++ (pathAncestors out).filter (fun q => ¬ q ∈ fs0.dirs))
          fs0.files) := by
    simp [process_directory, create_dir_all, hcreate]
  rw [hpd]
  exact processRun_spec api readF tree base out _ hfresh

/-- C3, witness: the fail-fast statement at a run whose only file is
unreadable; the error is returned and no `manifest.json` appears. -/
theorem c3_witness :
    ((process_directory specCssApi (treeRead sampleFailTree) sampleFailTree []
        ["out"] emptyFS).err =
      (discoveredFiles sampleFailTree []).findSome?
        (fileError? specCssApi (treeRead sampleFailTree))) ∧
    (∀ e, (process_directory specCssApi (treeRead sampleFailTree) sampleFailTree []
        ["out"] emptyFS).err = some e →
      ¬ (["out"] ++ ["manifest.json"]) ∈
        (process_directory specCssApi (treeRead sampleFailTree) sampleFailTree []
          ["out"] emptyFS).fs.files.map Prod.fst) ∧
    ((process_directory specCssApi (treeRead sampleFailTree) sampleFailTree []
        ["out"] emptyFS).err = none →
      (["out"] ++ ["manifest.json"]) ∈
        (process_directory specCssApi (treeRead sampleFailTree) sampleFailTree []
          ["out"] emptyFS).fs.files.map Prod.fst ∧
      ∀ p ∈ discoveredFiles sampleFailTree [],
        pathToString p ∈
          (process_directory specCssApi (treeRead sampleFailTree) sampleFailTree []
            ["out"] emptyFS).manifest.map Prod.fst) :=
  c3_fail_fast specCssApi (treeRead sampleFailTree) sampleFailTree [] ["out"]
    emptyFS (by decide) (by decide)

/-- C4, counterexample: on input `css/main.css` with bytes
`body { margin: 0; }` the pipeline minifies before hashing, so the output
filename carries the digest of `body{margin:0}` — it is
`dfde4704d3fb14ac8edd252ae421d1d9ab76d1f8994104e30bfbcee691514959.css`,
not `057b37e61c8ec35690e7c0c321591990d37b9bdbef645cd780795a95672d65c0.css`
(the digest of the unminified bytes), and the manifest has no entry under
the key `css/main.css` (its key is the full traversed path). -/
theorem c4_counterexample :
    (process_directory specCssApi (treeRead sampleCssTree) sampleCssTree []
        ["out"] emptyFS).err = none ∧
    (process_directory specCssApi (treeRead sampleCssTree) sampleCssTree []
        ["out"] emptyFS).fs.files.map Prod.fst =
      [["out", "dfde4704d3fb14ac8edd252ae421d1d9ab76d1f8994104e30bfbcee691514959.css"],
       ["out", "manifest.json"]] ∧
    ¬ (["out", "057b37e61c8ec35690e7c0c321591990d37b9bdbef645cd780795a95672d65c0.css"] ∈
      (process_directory specCssApi (treeRead sampleCssTree) sampleCssTree []
        ["out"] emptyFS).fs.files.map Prod.fst) ∧
    manifestLookup (process_directory specCssApi (treeRead sampleCssTree)
        sampleCssTree [] ["out"] emptyFS).manifest "css/main.css" = none := by
  exact ⟨rfl, rfl, by decide, rfl⟩

/-- C4, amended: the digest `057b37e6...` is what the hash/rename step
alone produces for the raw bytes `body { margin: 0; }` (the repository
test vector); the full pipeline hashes the minified content
`body{margin:0}` and therefore writes
`dfde4704...css`, recording it under the full-path manifest key
`assets/css/main.css`. -/
theorem c4_concrete_example :
    hash_file_rename (PathFile.mk ["css", "main.css"] FileType.CSS
        (strToBytes "body \x7b margin: 0; \x7d")) =
      .ok (PathFile.mk
        ["css", "057b37e61c8ec35690e7c0c321591990d37b9bdbef645cd780795a95672d65c0.css"]
        FileType.CSS (strToBytes "body \x7b margin: 0; \x7d")) ∧
    (process_directory specCssApi (treeRead sampleCssTree) sampleCssTree []
        ["out"] emptyFS).manifest =
      [("assets/css/main.css",
        "dfde4704d3fb14ac8edd252ae421d1d9ab76d1f8994104e30bfbcee691514959.css")] ∧
    manifestLookup (process_directory specCssApi (treeRead sampleCssTree)
        sampleCssTree [] ["out"] emptyFS).manifest "assets/css/main.css" =
      some "dfde4704d3fb14ac8edd252ae421d1d9ab76d1f8994104e30bfbcee691514959.css" := by
  exact ⟨rfl, rfl, rfl⟩

/-! ## Claims C1 and C5 through C10 -/

/-- C1, counterexample: a readable file whose name has no extension does
not load; `load_file` returns the invalid-input I/O error even though the
read itself would succeed, contradicting the claim that such files are
classified `Other` and proceed. -/
theorem c1_counterexample :
    load_file (fun _ => .ok (strToBytes "static content")) ["assets", "main"] =
      .error (.IOError (IOError.mk .invalidInput "Invalid file extension.")) := by
  rfl

/-- C1, amended: `load_file` fails with an invalid-input I/O error whenever
the path has no file name or the file name has no extension; when an
extension exists, the type is `detect_file_type` of it and loading succeeds
exactly when the underlying read succeeds. -/
theorem c1_load_file_characterization
    (readF : RPath → Except IOError (List Nat)) (path : RPath) :
    load_file readF path =
      match pathFileName path with
      | none => .error (.IOError (IOError.mk .invalidInput "Invalid file name."))
      | some name =>
        match pathExtension path with
        | none => .error (.IOError (IOError.mk .invalidInput "Invalid file extension."))
        | some e =>
          match readF path with
          | .error io => .error (.IOError io)
          | .ok bs => .ok (File.mk name (detect_file_type e) bs) := by
  cases hname : pathFileName path with
  | none => simp [load_file, okOr, hname]
  | some name =>
    cases hext : pathExtension path with
    | none => simp [load_file, okOr, hname, hext, Except.map]
    | some e =>
      cases hread : readF path with
      | error io => simp [load_file, okOr, hname, hext, hread, Except.map]
      | ok bs => simp [load_file, okOr, hname, hext, hread, Except.map]

/-- C5, counterexample: on a path without extension the hash/rename step
does not produce `{hex-digest}` alone; it fails with an invalid-input
error (exactly as the unit test of `src/hash.rs` expects). -/
theorem c5_counterexample :
    hash_file_rename
      (PathFile.mk ["css", "main"] FileType.CSS (strToBytes "body \x7b margin: 0; \x7d")) =
      .error (IOError.mk .invalidInput "Invalid file extension.") := by
  rfl

/-- C5, amended: when the original path has an extension the new filename is
`{hex-digest}.{extension}` with the digest in lowercase hexadecimal; when
it has none, the step errors with kind `InvalidInput` instead of producing
`{hex-digest}` alone. -/
theorem c5_hash_rename_filename (f : PathFile) :
    hash_file_rename f =
      match pathExtension f.relative_path with
      | none => .error (IOError.mk .invalidInput "Invalid file extension.")
      | some e =>
        match pathParent f.relative_path with
        | none => .error (IOError.mk .invalidInput "No parent directory")
        | some par =>
          .ok (PathFile.mk (par ++ [blake3Hex f.contents ++ "." ++ e])
            f.file_type f.contents) :=
  hash_file_rename_spec f

/-- C6: the hash/rename step is deterministic; two files with identical
byte content and identical original extension receive an identical new
filename, whatever their original names or parent directories. -/
theorem c6_hash_rename_deterministic (f1 f2 g1 g2 : PathFile)
    (hc : f1.contents = f2.contents)
    (he : pathExtension f1.relative_path = pathExtension f2.relative_path)
    (h1 : hash_file_rename f1 = .ok g1)
    (h2 : hash_file_rename f2 = .ok g2) :
    pathFileName g1.relative_path = pathFileName g2.relative_path := by
  rw [hash_file_rename_spec] at h1 h2
  cases hext : pathExtension f1.relative_path with
  | none =>
    rw [hext] at h1
    exact absurd h1 (by simp)
  | some e =>
    rw [hext] at h1
    rw [he] at hext
    rw [hext] at h2
    cases hpar1 : pathParent f1.relative_path with
    | none =>
      rw [hpar1] at h1
      exact absurd h1 (by simp)
    | some par1 =>
      cases hpar2 : pathParent f2.relative_path with
      | none =>
        rw [hpar2] at h2
        exact absurd h2 (by simp)
      | some par2 =>
        rw [hpar1] at h1
        rw [hpar2] at h2
        have e1 : g1 = PathFile.mk (par1 ++ [blake3Hex f1.contents ++ "." ++ e])
            f1.file_type f1.contents := by
          cases h1
          rfl
        have e2 : g2 = PathFile.mk (par2 ++ [blake3Hex f2.contents ++ "." ++ e])
            f2.file_type f2.contents := by
          cases h2
          rfl
        rw [e1, e2, hc]
        simp [pathFileName_concat]

/-- C6, witness: two files with the same bytes but different names, parents
and type tags receive the same hashed filename. -/
theorem c6_witness :
    pathFileName (PathFile.mk
      ["a", "85052e9aab1b67b6622d94a08441b09fd5b7aca61ee360416d70de5da67d86ca.css"]
      FileType.CSS (strToBytes "hi")).relative_path =
    pathFileName (PathFile.mk
      ["b", "85052e9aab1b67b6622d94a08441b09fd5b7aca61ee360416d70de5da67d86ca.css"]
      FileType.Other (strToBytes "hi")).relative_path :=
  c6_hash_rename_deterministic
    (PathFile.mk ["a", "x.css"] FileType.CSS (strToBytes "hi"))
    (PathFile.mk ["b", "y.css"] FileType.Other (strToBytes "hi"))
    _ _ rfl rfl (by rfl) (by rfl)

/-- C7: the transformer is the identity on every non-CSS file; the result
is the very same record, for any behaviour of the CSS collaborator. -/
theorem c7_non_css_identity (api : CssApi) (f : File)
    (h : f.file_type ≠ FileType.CSS) : minify_css api f = .ok f := by
  simp [minify_css, h]

/-- C7, witness: a concrete `Other` file passes through unchanged. -/
theorem c7_witness :
    minify_css specCssApi (File.mk "example.txt" FileType.Other (strToBytes "Some random text")) =
      .ok (File.mk "example.txt" FileType.Other (strToBytes "Some random text")) :=
  c7_non_css_identity specCssApi _ (by decide)

/-- C8, counterexample: a byte sequence that is not valid text and a
syntactically malformed stylesheet produce errors of the same
`ParsingError` variant, so the invalid-text case is not distinguishable
from the parse-failure case at the error-variant level. -/
theorem c8_counterexample :
    resultErrVariant (minify_css specCssApi (File.mk "a.css" FileType.CSS [255])) =
        some ErrVariant.parsingV ∧
    resultErrVariant (minify_css specCssApi
        (File.mk "b.css" FileType.CSS (strToBytes "body \x7b"))) =
        some ErrVariant.parsingV := by
  exact ⟨rfl, rfl⟩

/-- C8, amended: the CSS transform surfaces two error variants, not three
distinguishable ones; invalid text and parse failure both surface as
`ParsingError` (differing only in message text), while minifier-internal
failure surfaces as the distinct `MinificationError`. -/
theorem c8_css_error_variants (api : CssApi) (f : File)
    (hcss : f.file_type = FileType.CSS) :
    (decodeUtf8Str? f.contents = none →
      minify_css api f = .error (.ParsingError (utf8ErrorMsg f.contents))) ∧
    (∀ s m, decodeUtf8Str? f.contents = some s → api.parse s = .error m →
      minify_css api f = .error (.ParsingError m)) ∧
    (∀ s a m, decodeUtf8Str? f.contents = some s → api.parse s = .ok a →
      api.minifyAst a = .error m →
      minify_css api f = .error (.MinificationError m)) := by
  refine ⟨fun hdec => ?_, fun s m hdec hp => ?_, fun s a m hdec hp hm => ?_⟩
  · simp [minify_css, hcss, hdec]
  · simp [minify_css, hcss, hdec, hp]
  · simp [minify_css, hcss, hdec, hp, hm]

/-- C8, witness: the invalid-text branch at a concrete input, through the
amended theorem. -/
theorem c8_witness :
    minify_css specCssApi (File.mk "a.css" FileType.CSS [255]) =
      .error (.ParsingError (utf8ErrorMsg [255])) :=
  (c8_css_error_variants specCssApi (File.mk "a.css" FileType.CSS [255]) rfl).1 rfl

/-- C9: directory creation for the output root is permissive; whenever no
regular file blocks the output path, `create_dir_all` succeeds — whether or
not the directory already exists — and `process_directory` proceeds to the
traversal on the augmented state. -/
theorem c9_output_dir_idempotent (api : CssApi)
    (readF : RPath → Except IOError (List Nat)) (tree : FSTree)
    (base output_dir : RPath) (fs0 : OutFS)
    (h : createBlocked output_dir fs0 = false) :
    create_dir_all output_dir fs0 =
      .ok (OutFS.mk
        (fs0.dirs ++ (pathAncestors output_dir).filter (fun q => ¬ q ∈ fs0.dirs))
        fs0.files) ∧
    process_directory api readF tree base output_dir fs0 =
      processRun api readF tree base output_dir
        (OutFS.mk
          (fs0.dirs ++ (pathAncestors output_dir).filter (fun q => ¬ q ∈ fs0.dirs))
          fs0.files) := by
  constructor
  · simp [create_dir_all, h]
  · simp [process_directory, create_dir_all, h]

/-- C9, witness: a pre-existing output root (already among the directories)
does not make the run fail at creation. -/
theorem c9_witness :
    create_dir_all ["out"] (OutFS.mk [["out"]] []) =
      .ok (OutFS.mk
        ((OutFS.mk [["out"]] []).dirs ++
          (pathAncestors ["out"]).filter (fun q => ¬ q ∈ (OutFS.mk [["out"]] []).dirs))
        (OutFS.mk [["out"]] []).files) ∧
    process_directory specCssApi (treeRead (FSTree.file "a.txt" (.ok [104, 105])))
        (FSTree.file "a.txt" (.ok [104, 105])) [] ["out"] (OutFS.mk [["out"]] []) =
      processRun specCssApi (treeRead (FSTree.file "a.txt" (.ok [104, 105])))
        (FSTree.file "a.txt" (.ok [104, 105])) [] ["out"]
        (OutFS.mk
          ((OutFS.mk [["out"]] []).dirs ++
            (pathAncestors ["out"]).filter (fun q => ¬ q ∈ (OutFS.mk [["out"]] []).dirs))
          (OutFS.mk [["out"]] []).files) :=
  c9_output_dir_idempotent specCssApi _ _ [] ["out"] (OutFS.mk [["out"]] []) (by decide)

/-- C10: the hash/rename step is a pure rename; on success the type tag and
the byte content are unchanged and the parent directory segment of the
path is preserved. -/
theorem c10_hash_rename_frame (f g : PathFile)
    (h : hash_file_rename f = .ok g) :
    g.file_type = f.file_type ∧ g.contents = f.contents ∧
    pathParent g.relative_path = pathParent f.relative_path := by
  rw [hash_file_rename_spec] at h
  cases hext : pathExtension f.relative_path with
  | none =>
    rw [hext] at h
    exact absurd h (by simp)
  | some e =>
    rw [hext] at h
    cases hpar : pathParent f.relative_path with
    | none =>
      rw [hpar] at h
      exact absurd h (by simp)
    | some par =>
      rw [hpar] at h
      have e1 : g = PathFile.mk (par ++ [blake3Hex f.contents ++ "." ++ e])
          f.file_type f.contents := by
        cases h
        rfl
      rw [e1]
      exact ⟨rfl, rfl, by rw [pathParent_concat]⟩

/-- C10, witness: the frame conditions at a concrete file (the empty-content
test vector of `src/hash.rs`). -/
theorem c10_witness :
    (PathFile.mk
        ["css", "af1349b9f5f9a1a6a0404dea36dcc9499bcb25c9adc112b7cc9a93cae41f3262.css"]
        FileType.CSS []).file_type = (PathFile.mk ["css", "main.css"] FileType.CSS []).file_type ∧
    (PathFile.mk
        ["css", "af1349b9f5f9a1a6a0404dea36dcc9499bcb25c9adc112b7cc9a93cae41f3262.css"]
        FileType.CSS []).contents = (PathFile.mk ["css", "main.css"] FileType.CSS []).contents ∧
    pathParent (PathFile.mk
        ["css", "af1349b9f5f9a1a6a0404dea36dcc9499bcb25c9adc112b7cc9a93cae41f3262.css"]
        FileType.CSS []).relative_path =
      pathParent (PathFile.mk ["css", "main.css"] FileType.CSS []).relative_path :=
  c10_hash_rename_frame (PathFile.mk ["css", "main.css"] FileType.CSS []) _ (by rfl)

end StaticPreprocessing
